import Mathlib

/-!
Shallow embedding of the ctclsite-v3 build pipeline (src/lib.rs).

The filesystem is modelled as an association list of paths to file contents
plus a list of existing directories.  Each build function is translated from
the Rust source; functions additionally return the list of write operations
they performed, modelling the spec's "write-count instrumentation".
Modules absent from the source tree (page.rs, themes.rs, logger.rs) are
modelled from the spec where a claim needs them, with doc comments saying so.
-/

namespace Ctclsite

/-- Boolean initial-segment test on character lists (byte-level model of
Rust's `str::starts_with`). -/
def listStartsWith : List Char → List Char → Bool
  | [], _ => true
  | _ :: _, [] => false
  | a :: as, b :: bs => a == b && listStartsWith as bs

/-- String-level initial-segment test, via the underlying character lists. -/
def strStartsWith (pre s : String) : Bool :=
  listStartsWith pre.data s.data

/-- Drop a single trailing slash, as Rust path joining normalizes it. -/
def stripSlash (s : String) : String :=
  if s.data.getLast? = some '/' then ⟨s.data.dropLast⟩ else s

/-- The directory name with exactly one trailing slash. -/
def dirSlash (s : String) : String := stripSlash s ++ "/"

/-- Model of Rust `str::strip_prefix`: remove a leading occurrence of
`pre` from `s`, or fail. -/
def stripLead? (pre s : String) : Option String :=
  if strStartsWith pre s then some ⟨s.data.drop pre.data.length⟩ else none

/-- Final path component (the part after the last slash). -/
def lastComponent (l : List Char) : List Char :=
  (l.reverse.takeWhile (fun c => c ≠ '/')).reverse

/-- Model of Rust `Path::extension()`: the part of the file name after the
last dot; `none` when the file name has no dot, or its only dot is the
leading character (hidden files). -/
def extension? (p : String) : Option String :=
  let name := lastComponent p.data
  if name.contains '.' then
    let ext := (name.reverse.takeWhile (fun c => c ≠ '.')).reverse
    if name.length - ext.length - 1 = 0 then none else some ⟨ext⟩
  else none

/-- The `std::io::ErrorKind` values the source distinguishes. -/
inductive ErrKind
  | notFound
  | alreadyExists
  | invalidData
  | invalidInput
  | other
deriving DecidableEq, Repr

/-- An I/O error: a kind together with its message. -/
structure Err where
  kind : ErrKind
  msg : String
deriving DecidableEq, Repr

/-- Extract the error kind of a fallible result, if it failed. -/
def errKind? {α : Type} : Except Err α → Option ErrKind
  | .error e => some e.kind
  | .ok _ => none

/-- One RGB pixel (bytes 0..=255, represented as naturals). -/
structure Rgb3 where
  r : Nat
  g : Nat
  b : Nat
deriving DecidableEq, Repr

/-- An in-memory image, as the `image` crate's `RgbImage`: width, height and
row-major pixel buffer. -/
structure Img where
  width : Nat
  height : Nat
  pixels : List Rgb3
deriving DecidableEq, Repr

/-- `RgbImage::new(w, h)`: a zero-initialized pixel buffer. -/
def RgbImage.new (w h : Nat) : Img :=
  ⟨w, h, List.replicate (w * h) ⟨0, 0, 0⟩⟩

/-- `put_pixel`: overwrite the pixel at `(x, y)` (row-major index). -/
def Img.put_pixel (img : Img) (x y : Nat) (c : Rgb3) : Img :=
  { img with pixels := img.pixels.set (y * img.width + x) c }

/-- Contents of one file in the model: markdown/text, an encoded icon image,
or a file whose open/read faults (permission error, etc.). -/
inductive FileContent
  | text (s : String)
  | ico (i : Img)
  | unreadable
deriving DecidableEq, Repr

/-- First-match association-list lookup. -/
def lookupAssoc {α : Type} : List (String × α) → String → Option α
  | [], _ => none
  | (k, v) :: t, key => if k = key then some v else lookupAssoc t key

/-- Replace the binding for `k` if present (first occurrence), else append. -/
def setAssoc : List (String × FileContent) → String → FileContent →
    List (String × FileContent)
  | [], k, v => [(k, v)]
  | (k', v') :: t, k, v =>
      if k' = k then (k, v) :: t else (k', v') :: setAssoc t k v

/-- The modelled filesystem: files (path to contents) and directories. -/
structure FsState where
  files : List (String × FileContent)
  dirs : List String
deriving DecidableEq, Repr

/-- Lookup of a file's contents by path. -/
def fsLookup (l : List (String × FileContent)) (p : String) : Option FileContent :=
  lookupAssoc l p

/-- Model of `fs::exists`: true when `p` names an existing file or directory. -/
def fsExists (st : FsState) (p : String) : Bool :=
  (fsLookup st.files p).isSome || st.dirs.contains p

/-- Directory existence up to a trailing slash. -/
def dirMem (st : FsState) (d : String) : Bool :=
  st.dirs.contains d || st.dirs.contains (stripSlash d) || st.dirs.contains (dirSlash d)

/-- A logged write operation: a fresh file write or a file copy. -/
inductive WriteOp
  | write (path : String)
  | copy (src dst : String)
deriving DecidableEq, Repr

/-- Model of `std::fs::create_dir`: fails with `AlreadyExists` when the
directory is present. -/
def createDir (st : FsState) (p : String) : Except Err FsState :=
  if st.dirs.contains p then
    .error ⟨.alreadyExists, "File exists: " ++ p⟩
  else
    .ok { st with dirs := p :: st.dirs }

/-- `mkdir` from lib.rs: `create_dir` with `AlreadyExists` tolerated and
any other failure rewrapped with kind `Other`. -/
def mkdir (st : FsState) (p : String) : Except Err FsState :=
  match createDir st p with
  | .error e =>
      match e.kind with
      | .alreadyExists => .ok st
      | _ => .error ⟨.other, "Error creating directory " ++ p ++ ": " ++ e.msg⟩
  | .ok st' => .ok st'

/-- `std::fs::create_dir_all`: directory creation that tolerates existence. -/
def createDirAll (st : FsState) (p : String) : FsState :=
  if st.dirs.contains p then st else { st with dirs := p :: st.dirs }

/-- Model of `std::fs::copy`: requires the source file to exist and
overwrites the destination with its contents. -/
def copyFile (st : FsState) (src dst : String) : Except Err FsState :=
  match fsLookup st.files src with
  | some c => .ok { st with files := setAssoc st.files dst c }
  | none => .error ⟨.notFound, "No such file: " ++ src⟩

/-- `p` is a direct child of directory `dir`: `dir` plus slash plus one
nonempty slash-free name. -/
def isDirectChild (dir p : String) : Bool :=
  strStartsWith (dirSlash dir) p &&
  !(p.data.drop (dirSlash dir).data.length).isEmpty &&
  !(p.data.drop (dirSlash dir).data.length).contains '/'

/-- The entries `fs::read_dir dir` yields: the files that are direct
children of `dir` (paths as Rust builds them, `dir` joined with the name). -/
def read_dirEntries (st : FsState) (dir : String) : List (String × FileContent) :=
  st.files.filter (fun pc => isDirectChild dir pc.1)

/-- Model of `fs::read_dir`: fails when the directory does not exist. -/
def read_dir (st : FsState) (dir : String) :
    Except Err (List (String × FileContent)) :=
  if dirMem st dir then .ok (read_dirEntries st dir)
  else .error ⟨.notFound, "No such directory: " ++ dir⟩

/-- A `Theme` as loaded by the theme registry: two hex color strings. -/
structure Theme where
  color : String
  fgcolor : String
deriving DecidableEq, Repr

/-- Value of a single hexadecimal digit. -/
def hexVal? (c : Char) : Option Nat :=
  if '0' ≤ c ∧ c ≤ '9' then some (c.toNat - '0'.toNat)
  else if 'a' ≤ c ∧ c ≤ 'f' then some (c.toNat - 'a'.toNat + 10)
  else if 'A' ≤ c ∧ c ≤ 'F' then some (c.toNat - 'A'.toNat + 10)
  else none

/-- `value.color.replace('#', "")`: remove every hash character. -/
def stripHashes (s : String) : String :=
  ⟨s.data.filter (fun c => c ≠ '#')⟩

/-- Model of `hex::decode_to_slice` into a 3-byte buffer: succeeds exactly
when the string is 6 hexadecimal digits. -/
def hexDecode3? (s : String) : Option Rgb3 :=
  match s.data with
  | [a, b, c, d, e, f] =>
      match hexVal? a, hexVal? b, hexVal? c, hexVal? d, hexVal? e, hexVal? f with
      | some ha, some la, some hb, some lb, some hc, some lc =>
          some ⟨16 * ha + la, 16 * hb + lb, 16 * hc + lc⟩
      | _, _, _, _, _, _ => none
  | _ => none

/-- The formatted per-theme favicon path `static/favicons/default_<key>.ico`. -/
def faviconPath (key : String) : String :=
  "static/favicons/default_" ++ key ++ ".ico"

/-- The path the source's existence check actually tests: the string literal
passed to `fs::exists` in lib.rs line 175, which lacks the `format!` macro,
so the placeholder is not substituted. -/
def literalFaviconCheckPath : String :=
  "static/favicons/default_\x7bkey\x7d.ico"

/-- The 16x16 canvas `mkfavicons` builds: `RgbImage::new(16, 16)` followed by
`put_pixel` on every coordinate with the decoded color. -/
def faviconImage (c : Rgb3) : Img :=
  (List.range 16).foldl
    (fun im x => (List.range 16).foldl (fun im2 y => im2.put_pixel x y c) im)
    (RgbImage.new 16 16)

/-- One iteration of the `mkfavicons` loop: skip when the (literal) checked
path exists, otherwise decode the hex color (`unwrap` panic modelled as a
fatal error) and save the solid image at the formatted per-theme path. -/
def mkfaviconsStep (acc : FsState × List WriteOp) (kv : String × Theme) :
    Except Err (FsState × List WriteOp) :=
  if !(fsExists acc.1 literalFaviconCheckPath) then
    match hexDecode3? (stripHashes kv.2.color) with
    | none => .error ⟨.other, "panicked: hex decode failed for theme " ++ kv.1⟩
    | some c =>
        .ok ({ acc.1 with
                 files := setAssoc acc.1.files (faviconPath kv.1)
                            (.ico (faviconImage c)) },
             acc.2 ++ [.write (faviconPath kv.1)])
  else .ok acc

/-- `mkfavicons` from lib.rs: ensure `static/favicons/` exists, then run the
per-theme loop over the registry (iteration order given by the list). -/
def mkfavicons (themes : List (String × Theme)) (st : FsState) :
    Except Err (FsState × List WriteOp) := do
  let st ← mkdir st "static/favicons/"
  themes.foldlM mkfaviconsStep (st, [])

/-- A navbar entry from config.json. -/
structure NavbarLink where
  title : String
  link : String
deriving DecidableEq, Repr

/-- The file-type classification of an extension. -/
inductive ExtensionFileType
  | Binary
  | Config
  | Image
  | Pdf
  | Text
  | Video
deriving DecidableEq, Repr

/-- Modelled from the spec: log configuration lives in the absent logger
module and is opaque to this core. -/
structure LogConfig where
deriving DecidableEq, Repr

/-- Modelled from the spec: `FontFamily` lives in the absent themes module
and is opaque to this core; pages reference fonts by id only. -/
structure FontFamily where
deriving DecidableEq, Repr

/-- Page type tag. Modelled from the spec: the page module is absent from
the source tree; the spec fixes the four `ptype` variants. -/
inductive Ptype
  | sections
  | content
  | linklist
  | link
deriving DecidableEq, Repr

/-- Modelled from the spec: one full-viewport block of a sectioned page. -/
structure Section where
  theme : String
  title : String
  content : String
  fitscreen : Bool
  bgvid : Option String
  bgimg : Option String
deriving DecidableEq, Repr

/-- Modelled from the spec: one grouping tab of a linklist page. -/
structure LinkCat where
  title : String
  theme : String
deriving DecidableEq, Repr

/-- Modelled from the spec: a page record — one record with a `ptype` tag
and optional fields gated by the type, as the absent page module declares. -/
structure Page where
  ptype : Ptype
  link : String
  theme : String
  title : String
  desc : Option String
  keywords : Option String
  favicon : Option String
  icon : Option String
  icontitle : Option String
  cat : Option String
  date : Option String
  shownavbar : Bool
  sections : List (String × Section)
  content : Option String
  cats : List (String × LinkCat)
  menu : Option (List String)
deriving DecidableEq, Repr

/-- `SiteConfig` from lib.rs.  Maps are modelled as association lists; the
free-form `themevars`/`uservars` JSON maps are opaque to every claim and
modelled as optional unit values. -/
structure SiteConfig where
  bindip : String
  bindport : Nat
  sitedomain : String
  fontdir : String
  jsdir : String
  pagedir : String
  staticdir : String
  themedir : String
  templatedir : String
  defaulttheme : String
  cpus : Nat
  redirects : List (String × String)
  navbar : List NavbarLink
  log : LogConfig
  minimizehtml : Bool
  filetypes : List (String × ExtensionFileType)
  themevars : Option Unit
  uservars : Option Unit
  pages : List (String × Page)
  themes : List (String × Theme)
  fonts : List (String × FontFamily)
deriving DecidableEq, Repr

/-- `buildjs` from lib.rs: make `static/js/`, then copy every entry of the
configured js directory to `"static/" ++ <entry path>` (the destination the
source's `format!("static/\x7b\x7d", rd.path())` produces). -/
def buildjs (cfg : SiteConfig) (st : FsState) :
    Except Err (FsState × List WriteOp) := do
  let st ← mkdir st "static/js/"
  match read_dir st cfg.jsdir with
  | .error e => .error ⟨.other, e.msg⟩
  | .ok entries =>
      entries.foldlM
        (fun acc pc =>
          match copyFile acc.1 pc.1 ("static/" ++ pc.1) with
          | .ok st2 => .ok (st2, acc.2 ++ [.copy pc.1 ("static/" ++ pc.1)])
          | .error ce => .error ⟨.other, ce.msg⟩)
        (st, [])

/-- The destination `collectstatic` computes for a page-tree entry:
`static/pages/` plus the entry path with the configured page directory
stripped (falling back to the full path when stripping fails). -/
def mirrorPagesDest (pagedir p : String) : String :=
  match stripLead? pagedir p with
  | some s => "static/pages/" ++ s
  | none => "static/pages/" ++ p

/-- A directory or file entry of the page-tree walk. -/
inductive FsEntry
  | dir (p : String)
  | file (p : String) (c : FileContent)
deriving DecidableEq, Repr

/-- `p` lies under the tree rooted at `root` (the root itself included). -/
def underDir (root p : String) : Bool :=
  p == root || strStartsWith (dirSlash root) p

/-- The entries `WalkDir::new(root)` yields, directories and files. -/
def walkEntries (st : FsState) (root : String) : List FsEntry :=
  (st.dirs.filter (underDir root)).map .dir ++
  (st.files.filter (fun pc => underDir root pc.1)).map (fun pc => .file pc.1 pc.2)

/-- One iteration of the `collectstatic` page-tree loop: mirror directories
with `create_dir_all`; look a file's extension up in the classification
table, skip `Config` and unknown or missing extensions, and copy every other
typed file to the mirrored destination (`unwrap` on a copy failure modelled
as a fatal error). -/
def collectstaticStep (cfg : SiteConfig) (acc : FsState × List WriteOp)
    (e : FsEntry) : Except Err (FsState × List WriteOp) :=
  match e with
  | .dir p => .ok (createDirAll acc.1 (mirrorPagesDest cfg.pagedir p), acc.2)
  | .file p _ =>
      match extension? p with
      | some ext =>
          match lookupAssoc cfg.filetypes ext with
          | some .Config => .ok acc
          | some _ =>
              match copyFile acc.1 p (mirrorPagesDest cfg.pagedir p) with
              | .ok st2 =>
                  .ok (st2, acc.2 ++ [.copy p (mirrorPagesDest cfg.pagedir p)])
              | .error ce => .error ⟨.other, "panicked: " ++ ce.msg⟩
          | none => .ok acc
      | none => .ok acc

/-- One iteration of the `collectstatic` global-static loop: strip the
static directory from the entry path (`unwrap` on a failed strip modelled as
fatal) and copy the entry flat into `static/`. -/
def collectstaticFlat (cfg : SiteConfig) (acc2 : FsState × List WriteOp)
    (pc : String × FileContent) : Except Err (FsState × List WriteOp) :=
  match stripLead? cfg.staticdir pc.1 with
  | none => .error ⟨.other, "panicked: strip failed"⟩
  | some s =>
      match copyFile acc2.1 pc.1 ("static/" ++ s) with
      | .ok st2 => .ok (st2, acc2.2 ++ [.copy pc.1 ("static/" ++ s)])
      | .error ce =>
          .error ⟨.other, "collectstatic failed to copy " ++ pc.1 ++
                          ", " ++ ce.msg⟩

/-- `collectstatic` from lib.rs: make `static/pages/`, walk the page tree
mirroring directories and copying classified files, then copy every entry of
the global static directory flat into `static/` (path with the static
directory stripped; `strip_prefix(...).unwrap()` modelled as fatal when the
strip fails). -/
def collectstatic (cfg : SiteConfig) (st : FsState) :
    Except Err (FsState × List WriteOp) := do
  let st ← mkdir st "static/pages/"
  let acc ← (walkEntries st cfg.pagedir).foldlM (collectstaticStep cfg) (st, [])
  match read_dir acc.1 cfg.staticdir with
  | .error e => .error ⟨.other, "collectstatic: " ++ e.msg⟩
  | .ok entries => entries.foldlM (collectstaticFlat cfg) acc

/-- `read_file` from lib.rs: `NotFound` for a missing file; open faults are
rewrapped with kind `Other`; `read_to_string` on non-text contents fails
with `InvalidData`, propagated unchanged by the `?` operator. -/
def read_file (st : FsState) (path : String) : Except Err String :=
  match fsLookup st.files path with
  | none => .error ⟨.notFound, "File not found: " ++ path⟩
  | some (.text s) => .ok s
  | some (.ico _) =>
      .error ⟨.invalidData, "stream did not contain valid UTF-8"⟩
  | some .unreadable =>
      .error ⟨.other, "Error reading from file " ++ path⟩

/-- The comrak options `mdpath2html` configures: raw-HTML passthrough
(`render.unsafe_`) and tables on unconditionally, heading ids exactly when
the flag is set.  `raw` embeds comrak's `render.unsafe_` field. -/
structure RenderOpts where
  raw : Bool
  table : Bool
  header_ids : Option String
deriving DecidableEq, Repr

/-- `Options::default()`: everything off. -/
def RenderOpts.default : RenderOpts := ⟨false, false, none⟩

/-- The options value built inside `mdpath2html` for a given flag. -/
def mdOptions (headerids : Bool) : RenderOpts :=
  let o := { RenderOpts.default with raw := true, table := true }
  if headerids then { o with header_ids := some "" } else o

/-- Lower-case a heading title into its id slug. -/
def slugify (t : String) : String :=
  ⟨t.data.map (fun c => if c = ' ' then '-' else c.toLower)⟩

/-- Modelled from the spec: one line of the external comrak renderer, which
is not part of this repository.  The spec fixes the behavior a claim needs:
heading lines carry an `id` attribute exactly when `header_ids` is set, raw
HTML passes through exactly when raw passthrough is enabled, and everything
else becomes a paragraph. -/
def renderMdLine (opts : RenderOpts) (line : String) : String :=
  if strStartsWith "# " line then
    let t : String := ⟨line.data.drop 2⟩
    match opts.header_ids with
    | some pre => "<h1 id=\"" ++ pre ++ slugify t ++ "\">" ++ t ++ "</h1>"
    | none => "<h1>" ++ t ++ "</h1>"
  else if opts.raw && strStartsWith "<" line then line
  else "<p>" ++ line ++ "</p>"

/-- Modelled from the spec: the external comrak `markdown_to_html`, a pure
deterministic function of the markdown text and the options. -/
def markdown_to_html (md : String) (opts : RenderOpts) : String :=
  String.intercalate "\n" ((md.splitOn "\n").map (renderMdLine opts))

/-- `mdpath2html` from lib.rs: build the options, read the source file, and
render; any read failure is rewrapped with kind `Other` and a message naming
the file. -/
def mdpath2html (st : FsState) (path : String) (headerids : Bool) :
    Except Err String :=
  let opts := mdOptions headerids
  match read_file st path with
  | .ok c => .ok (markdown_to_html c opts)
  | .error e =>
      .error ⟨.other, "Failed to render markdown file " ++ path ++ ": " ++ e.msg⟩

/-- The external loaders `loadconfig` orchestrates (`loadfonts`,
`loadthemes`, `loadpages` live in modules absent from the source tree);
modelled as oracle functions, per the spec's external-collaborator
interfaces. -/
structure Loaders where
  loadfonts : SiteConfig → Except Err (List (String × FontFamily))
  loadthemes : SiteConfig → Except Err (List (String × Theme))
  loadpages : SiteConfig → Except Err (List (String × Page))

/-- `loadconfig` from lib.rs, with the parsed config.json supplied as
`base` (its pages/themes/fonts fields empty by serde skip): create
`static/`, load fonts then themes, generate favicons, collect static
assets, load pages, then fail with `NotFound` when the page or theme
registry ends up empty. -/
def loadconfig (L : Loaders) (base : SiteConfig) (st : FsState) :
    Except Err SiteConfig :=
  match mkdir st "static/" with
  | .error e => .error e
  | .ok st1 =>
  match L.loadfonts base with
  | .error e => .error e
  | .ok fonts =>
  let cfg1 := { base with fonts := fonts }
  match L.loadthemes cfg1 with
  | .error e => .error e
  | .ok thms =>
  let cfg2 := { cfg1 with themes := thms }
  match mkfavicons cfg2.themes st1 with
  | .error e => .error e
  | .ok (st2, _) =>
  match collectstatic cfg2 st2 with
  | .error e => .error ⟨.other, "collectstatic: " ++ e.msg⟩
  | .ok (_, _) =>
  match L.loadpages cfg2 with
  | .error e => .error e
  | .ok pgs =>
  let cfg3 := { cfg2 with pages := pgs }
  if cfg3.pages.isEmpty then .error ⟨.notFound, "No pages found"⟩
  else if cfg3.themes.isEmpty then .error ⟨.notFound, "No themes found"⟩
  else .ok cfg3

/-- A rendered section of a page context: the section fields with the
content path replaced by rendered HTML. -/
structure RenderedSection where
  theme : String
  title : String
  fitscreen : Bool
  bgvid : Option String
  bgimg : Option String
  content : String
deriving DecidableEq, Repr

/-- The render context the Page Context Builder produces. -/
structure PageContext where
  link : String
  theme : String
  themecolor : String
  title : String
  desc : Option String
  keywords : Option String
  favicon : String
  shownavbar : Bool
  sections : List (String × RenderedSection)
  content : Option String
  cats : List (String × LinkCat)
  menu : List Page
deriving DecidableEq, Repr

/-- Render each section's content path without heading anchors, in order. -/
def renderSections (st : FsState) :
    List (String × Section) → Except Err (List (String × RenderedSection))
  | [] => .ok []
  | (name, sec) :: t =>
      match mdpath2html st sec.content false with
      | .error e => .error e
      | .ok html =>
          match renderSections st t with
          | .error e => .error e
          | .ok rest =>
              .ok ((name, ⟨sec.theme, sec.title, sec.fitscreen, sec.bgvid,
                           sec.bgimg, html⟩) :: rest)

/-- Resolve each menu id against the category's page mapping, in list
order; a missing id fails with `NotFound` naming it. -/
def resolveMenu (catMap : List (String × Page)) :
    List String → Except Err (List Page)
  | [] => .ok []
  | pid :: t =>
      match lookupAssoc catMap pid with
      | none => .error ⟨.notFound, "Menu page not found: " ++ pid⟩
      | some pg =>
          match resolveMenu catMap t with
          | .error e => .error e
          | .ok rest => .ok (pg :: rest)

/-- Modelled from the spec: `buildContext` lives in the absent page module.
Steps follow the spec's Page Context Builder contract in order: resolve the
category (`NotFound`), look the page up (`NotFound`), reject the `link`
variant (`InvalidInput`), resolve the theme (`NotFound`), compute the
favicon (explicit or deterministic default keyed by the page's theme id),
populate the scalar fields, then render sections (no anchors), render
singular content (with anchors), pass linklist categories through, and
resolve the menu. -/
def buildContext (st : FsState)
    (pagesByCat : List (String × List (String × Page)))
    (themes : List (String × Theme)) (sitedomain : String)
    (category pageId : String) : Except Err PageContext :=
  match lookupAssoc pagesByCat category with
  | none => .error ⟨.notFound, "Unknown category: " ++ category⟩
  | some catMap =>
  match lookupAssoc catMap pageId with
  | none => .error ⟨.notFound, "Page not found: " ++ pageId⟩
  | some page =>
  if page.ptype = .link then
    .error ⟨.invalidInput, "Cannot build a context for a link page"⟩
  else
  match lookupAssoc themes page.theme with
  | none => .error ⟨.notFound, "Theme not found: " ++ page.theme⟩
  | some thm =>
  let fav := match page.favicon with
    | some f => f
    | none => faviconPath page.theme
  match renderSections st page.sections with
  | .error e => .error e
  | .ok secs =>
  let contentHtml : Except Err (Option String) :=
    match page.content with
    | none => .ok none
    | some cpath =>
        match mdpath2html st cpath true with
        | .error e => .error e
        | .ok html => .ok (some html)
  match contentHtml with
  | .error e => .error e
  | .ok chtml =>
  match resolveMenu catMap (page.menu.getD []) with
  | .error e => .error e
  | .ok menuPages =>
      .ok ⟨sitedomain ++ page.link, page.theme, thm.color, page.title,
           page.desc, page.keywords, fav, page.shownavbar, secs, chtml,
           page.cats, menuPages⟩

/-- The writes a build step performed (empty when it failed). -/
def writesOf : Except Err (FsState × List WriteOp) → List WriteOp
  | .ok (_, ops) => ops
  | .error _ => []

/-- The filesystem after a build step, with a default for the failure case. -/
def stateAfter : Except Err (FsState × List WriteOp) → FsState → FsState
  | .ok (st, _), _ => st
  | .error _, d => d

/-- A baseline site configuration used to instantiate theorems on concrete
inputs. -/
def demoBase : SiteConfig :=
  { bindip := "0.0.0.0", bindport := 8080, sitedomain := "https://example.com",
    fontdir := "fonts", jsdir := "js", pagedir := "pages",
    staticdir := "gstatic", themedir := "themes", templatedir := "templates",
    defaulttheme := "dark", cpus := 1, redirects := [], navbar := [],
    log := ⟨⟩, minimizehtml := true, filetypes := [], themevars := none,
    uservars := none, pages := [], themes := [], fonts := [] }

/-- A one-theme registry: `dark`, accent color `#202020`. -/
def darkThemes : List (String × Theme) := [("dark", ⟨"#202020", "#ffffff"⟩)]

/-- A filesystem on which the favicon for theme `dark` already exists. -/
def c1State : FsState :=
  ⟨[(faviconPath "dark", .ico (faviconImage ⟨32, 32, 32⟩))],
   ["static/", "static/favicons/"]⟩

/-- A registry with one theme whose color string is not valid hex. -/
def badHexThemes : List (String × Theme) := [("oops", ⟨"#zzz", "#ffffff"⟩)]

/-- A filesystem on which the literal (un-interpolated) check path exists. -/
def literalPathState : FsState :=
  ⟨[(literalFaviconCheckPath, .text "")], ["static/", "static/favicons/"]⟩

/-- A configuration whose js directory is not literally `js`. -/
def c3Config : SiteConfig := { demoBase with jsdir := "cfg/js" }

/-- A filesystem with one script inside `cfg/js`. -/
def c3State : FsState := ⟨[("cfg/js/app.js", .text "x")], ["cfg/js", "static/"]⟩

/-- A link-variant page record. -/
def demoLinkPage : Page :=
  ⟨.link, "/ext", "dark", "External", none, none, none, none, none, none,
   none, true, [], none, [], none⟩

/-- Loaders giving one theme and zero pages, for the post-condition check. -/
def c6Loaders : Loaders :=
  ⟨fun _ => .ok [], fun _ => .ok darkThemes, fun _ => .ok []⟩

/-- A configuration classifying `json` as config and `png` as image. -/
def c4Config : SiteConfig :=
  { demoBase with filetypes := [("json", .Config), ("png", .Image)] }

/-- A page tree holding one config-typed file, one image-typed file, one
extensionless file and one unknown-extension file. -/
def c4State : FsState :=
  ⟨[("pages/a.json", .text "cfg"), ("pages/b.png", .text "img"),
    ("pages/README", .text "r"), ("pages/c.xyz", .text "u")],
   ["pages", "gstatic"]⟩

/-- Overwrite the listed pixel indices with a color, in order. -/
def setAll (l : List Rgb3) (c : Rgb3) (idxs : List Nat) : List Rgb3 :=
  idxs.foldl (fun acc i => acc.set i c) l

/-- The row-major indices the `mkfavicons` double loop touches, in loop
order: for each x, the indices `y * 16 + x` for every y. -/
def fillIndices : List Nat :=
  (List.range 16).foldr
    (fun x acc => ((List.range 16).map (fun y => y * 16 + x)) ++ acc) []

/-! ### Theorems -/

theorem strExt {a b : String} (h : a.data = b.data) : a = b := by
  cases a; cases b; exact congrArg String.mk h

theorem listStartsWith_append (a t : List Char) :
    listStartsWith a (a ++ t) = true := by
  induction a with
  | nil => rfl
  | cons x xs ih => simp [listStartsWith, ih]

theorem listStartsWith_exists {a b : List Char}
    (h : listStartsWith a b = true) : ∃ t, b = a ++ t := by
  induction a generalizing b with
  | nil => exact ⟨b, rfl⟩
  | cons x xs ih =>
      cases b with
      | nil => simp [listStartsWith] at h
      | cons y ys =>
          simp only [listStartsWith, Bool.and_eq_true, beq_iff_eq] at h
          obtain ⟨t, ht⟩ := ih h.2
          exact ⟨t, by simp [h.1, ht]⟩

theorem lookupAssoc_setAssoc_self (l : List (String × FileContent))
    (k : String) (v : FileContent) :
    lookupAssoc (setAssoc l k v) k = some v := by
  induction l with
  | nil => simp [setAssoc, lookupAssoc]
  | cons hd tl ih =>
      by_cases h : hd.1 = k
      · simp [setAssoc, h, lookupAssoc]
      · simp [setAssoc, h, lookupAssoc, ih]

theorem lookupAssoc_setAssoc_ne (l : List (String × FileContent))
    (k v : _) (k' : String) (h : k' ≠ k) :
    lookupAssoc (setAssoc l k v) k' = lookupAssoc l k' := by
  induction l with
  | nil =>
      simp only [setAssoc, lookupAssoc]
      rw [if_neg (fun hh => h hh.symm)]
  | cons hd tl ih =>
      obtain ⟨a, b⟩ := hd
      by_cases hk : a = k
      · simp only [setAssoc, if_pos hk, lookupAssoc]
        rw [if_neg (fun hh => h hh.symm), if_neg (by rw [hk]; exact fun hh => h hh.symm)]
      · simp only [setAssoc, if_neg hk, lookupAssoc, ih]

theorem mkdir_eq (st : FsState) (p : String) :
    mkdir st p = .ok (createDirAll st p) := by
  by_cases h : p ∈ st.dirs <;>
    simp [mkdir, createDir, createDirAll, h]

/-- C1: favicon generation is NOT idempotent per theme.  Even though the
favicon file for theme `dark` already exists at its deterministic path,
`mkfavicons` performs a write for that theme, and a second run performs a
second write: the existence check consults the literal un-interpolated path
`static/favicons/default_\x7bkey\x7d.ico` instead of the per-theme path,
contradicting the source's own comment (lib.rs:174) and the spec. -/
theorem mkfavicons_not_idempotent :
    fsExists c1State (faviconPath "dark") = true ∧
    writesOf (mkfavicons darkThemes c1State) =
      [WriteOp.write (faviconPath "dark")] ∧
    writesOf (mkfavicons darkThemes
        (stateAfter (mkfavicons darkThemes c1State) c1State)) =
      [WriteOp.write (faviconPath "dark")] :=
  ⟨rfl, rfl, rfl⟩

/-- C2 counterexample: on a filesystem without the requested path,
`mdpath2html` returns an error of kind `Other`, not `NotFound`: it rewraps
every `read_file` failure into `ErrorKind::Other`. -/
theorem mdpath2html_missing_kind_cex :
    errKind? (mdpath2html ⟨[], []⟩ "missing.md" false) = some ErrKind.other ∧
    some ErrKind.other ≠ some ErrKind.notFound :=
  ⟨rfl, by decide⟩

/-- C2 (amended): for every nonexistent path and flag value, `mdpath2html`
fails with kind `Other` (wrapping the underlying `NotFound`); the underlying
`read_file` is what distinguishes `NotFound` for a missing file from
non-`NotFound` kinds for other I/O faults, while `mdpath2html` collapses
every read failure to kind `Other`. -/
theorem mdpath2html_error_kinds (st : FsState) (path : String) (hids : Bool) :
    (fsLookup st.files path = none →
       errKind? (read_file st path) = some ErrKind.notFound ∧
       errKind? (mdpath2html st path hids) = some ErrKind.other) ∧
    (fsLookup st.files path = some .unreadable ∨
       (∃ i, fsLookup st.files path = some (.ico i)) →
       errKind? (read_file st path) ≠ some ErrKind.notFound ∧
       (errKind? (read_file st path)).isSome = true ∧
       errKind? (mdpath2html st path hids) = some ErrKind.other) := by
  constructor
  · intro hnone
    simp [read_file, mdpath2html, errKind?, hnone]
  · rintro (hbad | ⟨i, hbad⟩) <;>
      simp [read_file, mdpath2html, errKind?, hbad]

/-- C2 witness: the amended theorem applied to the empty filesystem. -/
theorem mdpath2html_error_kinds_witness :
    errKind? (read_file ⟨[], []⟩ "a.md") = some ErrKind.notFound ∧
    errKind? (mdpath2html ⟨[], []⟩ "a.md" true) = some ErrKind.other :=
  (mdpath2html_error_kinds ⟨[], []⟩ "a.md" true).1 rfl

/-- C7: `mdpath2html` enables raw-HTML passthrough and tables
unconditionally and heading ids exactly when its flag is true; rendering a
text file goes through `markdown_to_html` with those options, under which a
heading line carries an `id` attribute for flag `true` and no `id`
attribute for flag `false`. -/
theorem mdpath2html_options (hids : Bool) (st : FsState) (path : String) :
    (mdOptions hids).raw = true ∧
    (mdOptions hids).table = true ∧
    ((mdOptions hids).header_ids.isSome = true ↔ hids = true) ∧
    (∀ s, fsLookup st.files path = some (.text s) →
       mdpath2html st path hids = .ok (markdown_to_html s (mdOptions hids))) ∧
    (∀ t : String,
       renderMdLine (mdOptions true) ("# " ++ t) =
         "<h1 id=\"" ++ slugify t ++ "\">" ++ t ++ "</h1>" ∧
       renderMdLine (mdOptions false) ("# " ++ t) =
         "<h1>" ++ t ++ "</h1>") := by
  refine ⟨?_, ?_, ?_, ?_, ?_⟩
  · cases hids <;> rfl
  · cases hids <;> rfl
  · cases hids <;> simp [mdOptions, RenderOpts.default]
  · intro s hs
    simp [mdpath2html, read_file, hs]
  · intro t
    have hpre : strStartsWith "# " ("# " ++ t) = true := by
      have : ("# " ++ t).data = "# ".data ++ t.data := String.data_append _ _
      simp [strStartsWith, this]
      exact listStartsWith_append _ _
    have hdrop : (⟨("# " ++ t).data.drop 2⟩ : String) = t := by
      apply strExt
      rw [String.data_append]
      exact List.drop_left "# ".data t.data
    constructor
    · simp only [renderMdLine, hpre, if_true, hdrop, mdOptions,
        RenderOpts.default]
      rfl
    · simp only [renderMdLine, hpre, if_true, hdrop, mdOptions,
        RenderOpts.default]
      rfl

/-- C7 witness: the options theorem applied to a concrete file with a
heading. -/
theorem mdpath2html_options_witness :
    mdpath2html ⟨[("a.md", .text "# T")], []⟩ "a.md" true =
      .ok (markdown_to_html "# T" (mdOptions true)) :=
  ((mdpath2html_options true ⟨[("a.md", .text "# T")], []⟩ "a.md").2.2.2.1)
    "# T" rfl

/-- C8: the markdown renderer is deterministic and reads only the requested
path: two calls against identical file contents at the path produce
identical results. -/
theorem mdpath2html_deterministic (st1 st2 : FsState) (path : String)
    (hids : Bool) (h : fsLookup st1.files path = fsLookup st2.files path) :
    mdpath2html st1 path hids = mdpath2html st2 path hids := by
  simp only [mdpath2html, read_file, h]

/-- C8 witness: determinism applied to two states that agree on the file. -/
theorem mdpath2html_deterministic_witness :
    mdpath2html ⟨[("a.md", .text "# T")], []⟩ "a.md" true =
      mdpath2html ⟨[("a.md", .text "# T"), ("b.md", .text "x")], ["d"]⟩
        "a.md" true :=
  mdpath2html_deterministic _ _ "a.md" true rfl

/-- C9: for every page of `ptype` `link` reachable through a category and a
page id, `buildContext` fails with `InvalidInput` and never yields a
context. -/
theorem buildContext_rejects_link (st : FsState)
    (pbc : List (String × List (String × Page)))
    (themes : List (String × Theme)) (dom cat pid : String)
    (catMap : List (String × Page)) (page : Page)
    (h1 : lookupAssoc pbc cat = some catMap)
    (h2 : lookupAssoc catMap pid = some page)
    (h3 : page.ptype = Ptype.link) :
    errKind? (buildContext st pbc themes dom cat pid) =
      some ErrKind.invalidInput := by
  simp [buildContext, h1, h2, h3, errKind?]

/-- C9 witness: the rejection applied to a concrete link page. -/
theorem buildContext_rejects_link_witness :
    errKind? (buildContext ⟨[], []⟩ [("about", [("x", demoLinkPage)])]
        darkThemes "https://example.com" "about" "x") =
      some ErrKind.invalidInput :=
  buildContext_rejects_link ⟨[], []⟩ _ darkThemes "https://example.com"
    "about" "x" _ demoLinkPage rfl rfl rfl

/-- C6: `loadconfig` never returns a `SiteConfig` whose page or theme
registry is empty, and whenever all loading steps complete with an empty
page registry or an empty theme registry it fails with kind `NotFound`. -/
theorem loadconfig_postcondition (L : Loaders) (base : SiteConfig)
    (st : FsState) :
    (∀ cfg', loadconfig L base st = .ok cfg' →
       cfg'.pages ≠ [] ∧ cfg'.themes ≠ []) ∧
    (∀ fonts thms pgs,
       L.loadfonts base = .ok fonts →
       L.loadthemes { base with fonts := fonts } = .ok thms →
       errKind? (mkfavicons thms (createDirAll st "static/")) = none →
       errKind? (collectstatic { base with fonts := fonts, themes := thms }
         (stateAfter (mkfavicons thms (createDirAll st "static/"))
            (createDirAll st "static/"))) = none →
       L.loadpages { base with fonts := fonts, themes := thms } = .ok pgs →
       (pgs = [] ∨ thms = []) →
       errKind? (loadconfig L base st) = some ErrKind.notFound) := by
  constructor
  · intro cfg' hok
    unfold loadconfig at hok
    rw [mkdir_eq] at hok
    dsimp only at hok
    cases hf : L.loadfonts base <;> rw [hf] at hok <;> dsimp only at hok
    case error e => exact absurd hok (by simp)
    case ok fonts =>
    cases ht : L.loadthemes { base with fonts := fonts } <;>
      rw [ht] at hok <;> dsimp only at hok
    case error e => exact absurd hok (by simp)
    case ok thms =>
    cases hm : mkfavicons thms (createDirAll st "static/") <;>
      rw [hm] at hok <;> dsimp only at hok
    case error e => exact absurd hok (by simp)
    case ok r =>
    obtain ⟨st2, ops2⟩ := r
    cases hc : collectstatic { base with fonts := fonts, themes := thms }
        st2 <;> rw [hc] at hok <;> dsimp only at hok
    case error e => exact absurd hok (by simp)
    case ok r2 =>
    obtain ⟨st3, ops3⟩ := r2
    cases hp : L.loadpages { base with fonts := fonts, themes := thms } <;>
      rw [hp] at hok <;> dsimp only at hok
    case error e => exact absurd hok (by simp)
    case ok pgs =>
    by_cases hpe : pgs.isEmpty = true
    · simp [hpe] at hok
    · by_cases hte : thms.isEmpty = true
      · simp [hpe, hte] at hok
      · simp only [hpe, hte, if_false, Bool.false_eq_true] at hok
        have := Except.ok.inj hok
        subst this
        constructor
        · simpa [List.isEmpty_iff] using hpe
        · simpa [List.isEmpty_iff] using hte
  · intro fonts thms pgs hf ht hm hc hp hemp
    unfold loadconfig
    rw [mkdir_eq]
    dsimp only
    rw [hf]
    dsimp only
    rw [ht]
    dsimp only
    cases hm' : mkfavicons thms (createDirAll st "static/")
    case error e => rw [hm'] at hm; exact absurd hm (by simp [errKind?])
    case ok r =>
    obtain ⟨st2, ops2⟩ := r
    have hst2 : stateAfter (mkfavicons thms (createDirAll st "static/"))
        (createDirAll st "static/") = st2 := by rw [hm']; rfl
    rw [hst2] at hc
    dsimp only
    cases hc' : collectstatic { base with fonts := fonts, themes := thms } st2
    case error e => rw [hc'] at hc; exact absurd hc (by simp [errKind?])
    case ok r2 =>
    obtain ⟨st3, ops3⟩ := r2
    dsimp only
    rw [hp]
    dsimp only
    rcases hemp with hemp | hemp
    · simp [hemp, errKind?]
    · cases pgs with
      | nil => simp [errKind?]
      | cons p ps => simp [hemp, errKind?]

/-- C6 witness: loaders returning one theme and zero pages make
`loadconfig` fail with `NotFound`. -/
theorem loadconfig_postcondition_witness :
    errKind? (loadconfig c6Loaders demoBase ⟨[], ["gstatic"]⟩) =
      some ErrKind.notFound :=
  (loadconfig_postcondition c6Loaders demoBase ⟨[], ["gstatic"]⟩).2
    [] darkThemes [] rfl rfl rfl (by rfl) rfl (Or.inl rfl)

theorem exceptBind_ok {α β : Type} (a : α) (f : α → Except Err β) :
    ((.ok a : Except Err α) >>= f) = f a := rfl

theorem exceptBind_error {α β : Type} (e : Err) (f : α → Except Err β) :
    ((.error e : Except Err α) >>= f) = .error e := rfl

theorem setAll_length (idxs : List Nat) : ∀ (l : List Rgb3) (c : Rgb3),
    (setAll l c idxs).length = l.length := by
  induction idxs with
  | nil => intro l c; rfl
  | cons i is ih =>
      intro l c
      show (setAll (l.set i c) c is).length = l.length
      rw [ih, List.length_set]

theorem setAll_getElem (idxs : List Nat) :
    ∀ (l : List Rgb3) (c : Rgb3) (j : Nat),
    (setAll l c idxs)[j]? =
      if j ∈ idxs ∧ j < l.length then some c else l[j]? := by
  induction idxs with
  | nil => intro l c j; simp [setAll]
  | cons i is ih =>
      intro l c j
      show (setAll (l.set i c) c is)[j]? = _
      rw [ih]
      by_cases hj : j ∈ is ∧ j < l.length
      · rw [if_pos (by simpa [List.length_set] using hj),
           if_pos ⟨List.mem_cons_of_mem i hj.1, hj.2⟩]
      · rw [if_neg (by simpa [List.length_set] using hj)]
        by_cases hji : j = i
        · subst hji
          by_cases hlt : j < l.length
          · rw [if_pos ⟨List.mem_cons_self j is, hlt⟩]
            exact List.getElem?_set_self' .. |>.trans
              (by simp [List.getElem?_eq_getElem hlt])
          · rw [if_neg (fun h => hlt h.2),
               List.set_eq_of_length_le (Nat.le_of_not_lt hlt)]
        · rw [List.getElem?_set_ne (fun h => hji h.symm)]
          rw [if_neg (fun h => (List.mem_cons.mp h.1).elim hji
                (fun hm => hj ⟨hm, h.2⟩))]

theorem innerFill (ys : List Nat) : ∀ (img : Img) (x : Nat) (c : Rgb3),
    img.width = 16 →
    ys.foldl (fun im2 y => im2.put_pixel x y c) img =
      ⟨16, img.height, setAll img.pixels c (ys.map (fun y => y * 16 + x))⟩ := by
  induction ys with
  | nil =>
      intro img x c hw
      obtain ⟨w, h, px⟩ := img
      simp only at hw
      subst hw
      rfl
  | cons y ys ih =>
      intro img x c hw
      show ys.foldl _ (img.put_pixel x y c) = _
      rw [ih (img.put_pixel x y c) x c (by simp [Img.put_pixel, hw])]
      simp [Img.put_pixel, hw, setAll]

theorem outerFill (xs : List Nat) : ∀ (img : Img) (c : Rgb3),
    img.width = 16 →
    xs.foldl
        (fun im x => (List.range 16).foldl
          (fun im2 y => im2.put_pixel x y c) im) img =
      ⟨16, img.height,
       xs.foldl
         (fun l x => setAll l c ((List.range 16).map (fun y => y * 16 + x)))
         img.pixels⟩ := by
  induction xs with
  | nil =>
      intro img c hw
      obtain ⟨w, h, px⟩ := img
      simp only at hw
      subst hw
      rfl
  | cons x xs ih =>
      intro img c hw
      rw [List.foldl_cons, List.foldl_cons,
         innerFill (List.range 16) img x c hw, ih _ c rfl]

theorem foldl_setAll (xs : List Nat) : ∀ (l : List Rgb3) (c : Rgb3),
    xs.foldl
        (fun l2 x => setAll l2 c ((List.range 16).map (fun y => y * 16 + x)))
        l =
      setAll l c
        (xs.foldr
          (fun x acc => ((List.range 16).map (fun y => y * 16 + x)) ++ acc)
          []) := by
  induction xs with
  | nil => intro l c; rfl
  | cons x xs ih =>
      intro l c
      show xs.foldl _ (setAll l c _) = _
      rw [ih]
      show _ = setAll l c (_ ++ _)
      simp only [setAll, List.foldl_append]

set_option maxRecDepth 4096 in
/-- Every row-major index below 256 is covered by the fill loop. -/
theorem fillIndices_mem : ∀ j, j < 256 → j ∈ fillIndices := by decide

/-- The canvas `mkfavicons` builds is the 16x16 image whose every pixel is
the decoded color. -/
theorem faviconImage_solid (c : Rgb3) :
    faviconImage c = ⟨16, 16, List.replicate 256 c⟩ := by
  have hlist : setAll (List.replicate 256 ⟨0, 0, 0⟩) c fillIndices =
      List.replicate 256 c := by
    apply List.ext_getElem?
    intro j
    rw [setAll_getElem, List.length_replicate]
    by_cases hj : j < 256
    · rw [if_pos ⟨fillIndices_mem j hj, hj⟩, List.getElem?_replicate,
          if_pos hj]
    · rw [if_neg (fun h => hj h.2), List.getElem?_replicate,
          List.getElem?_replicate, if_neg hj, if_neg hj]
  unfold faviconImage
  rw [outerFill (List.range 16) (RgbImage.new 16 16) c rfl, foldl_setAll]
  show Img.mk 16 16 (setAll (List.replicate 256 ⟨0, 0, 0⟩) c fillIndices) =
    Img.mk 16 16 (List.replicate 256 c)
  exact congrArg (Img.mk 16 16) hlist

theorem faviconPath_inj {k k' : String} (h : faviconPath k = faviconPath k') :
    k = k' := by
  unfold faviconPath at h
  have h2 : ("static/favicons/default_" ++ k).data ++ ".ico".data =
      ("static/favicons/default_" ++ k').data ++ ".ico".data := by
    rw [← String.data_append, ← String.data_append, h]
  have h3 := List.append_cancel_right h2
  rw [String.data_append, String.data_append] at h3
  exact strExt (List.append_cancel_left h3)

theorem mkfaviconsStep_files {acc acc' : FsState × List WriteOp}
    {kv : String × Theme} (hstep : mkfaviconsStep acc kv = .ok acc')
    (q : String) (hq : q ≠ faviconPath kv.1) :
    fsLookup acc'.1.files q = fsLookup acc.1.files q ∧
    acc'.1.dirs = acc.1.dirs := by
  unfold mkfaviconsStep at hstep
  cases hex : fsExists acc.1 literalFaviconCheckPath <;> rw [hex] at hstep
  · cases hdec : hexDecode3? (stripHashes kv.2.color) <;> rw [hdec] at hstep
    · exact absurd hstep (by simp)
    · have := Except.ok.inj hstep
      subst this
      exact ⟨lookupAssoc_setAssoc_ne _ _ _ _ hq, rfl⟩
  · have := Except.ok.inj hstep
    subst this
    exact ⟨rfl, rfl⟩

theorem mkfaviconsStep_exists_false {acc acc' : FsState × List WriteOp}
    {kv : String × Theme} (hstep : mkfaviconsStep acc kv = .ok acc')
    (hne : faviconPath kv.1 ≠ literalFaviconCheckPath)
    (hex : fsExists acc.1 literalFaviconCheckPath = false) :
    fsExists acc'.1 literalFaviconCheckPath = false := by
  have h := mkfaviconsStep_files hstep literalFaviconCheckPath
    (fun h => hne h.symm)
  unfold fsExists at hex ⊢
  rw [h.1, h.2]
  exact hex

theorem mkfavFold_preserves (ts : List (String × Theme)) :
    ∀ (acc : FsState × List WriteOp) (st' : FsState) (ops' : List WriteOp),
    ts.foldlM mkfaviconsStep acc = .ok (st', ops') →
    ∀ q : String, (∀ k ∈ ts.map Prod.fst, q ≠ faviconPath k) →
    fsLookup st'.files q = fsLookup acc.1.files q := by
  induction ts with
  | nil =>
      intro acc st' ops' hfold q _
      obtain ⟨st0, ops0⟩ := acc
      simp only [List.foldlM_nil] at hfold
      have := Except.ok.inj hfold
      rw [show st' = st0 from congrArg Prod.fst this.symm]
  | cons kv ts ih =>
      intro acc st' ops' hfold q hq
      rw [List.foldlM_cons] at hfold
      cases hstep : mkfaviconsStep acc kv <;> rw [hstep] at hfold
      case error e => rw [exceptBind_error] at hfold; exact absurd hfold (by simp)
      case ok acc1 =>
        rw [exceptBind_ok] at hfold
        have h1 := ih acc1 st' ops' hfold q
          (fun k hk => hq k (List.mem_cons_of_mem _ hk))
        have h2 := mkfaviconsStep_files hstep q (hq kv.1 (List.mem_cons_self _ _))
        rw [h1, h2.1]

theorem mkfavFold_fatal (ts : List (String × Theme)) :
    ∀ (acc : FsState × List WriteOp) (key : String) (t : Theme),
    (key, t) ∈ ts →
    (∀ k ∈ ts.map Prod.fst, faviconPath k ≠ literalFaviconCheckPath) →
    fsExists acc.1 literalFaviconCheckPath = false →
    hexDecode3? (stripHashes t.color) = none →
    ∃ e, ts.foldlM mkfaviconsStep acc = .error e := by
  induction ts with
  | nil => intro _ _ _ hmem; simp at hmem
  | cons kv ts ih =>
      intro acc key t hmem hnl hex hdec
      rw [List.foldlM_cons]
      rcases List.mem_cons.mp hmem with heq | htail
      · have hstep : mkfaviconsStep acc kv = .error
            ⟨.other, "panicked: hex decode failed for theme " ++ kv.1⟩ := by
          unfold mkfaviconsStep
          rw [hex]
          rw [show kv.2 = t from congrArg Prod.snd heq.symm, hdec]
          rfl
        rw [hstep, exceptBind_error]
        exact ⟨_, rfl⟩
      · cases hstep : mkfaviconsStep acc kv
        case error e => rw [exceptBind_error]; exact ⟨e, rfl⟩
        case ok acc1 =>
          rw [exceptBind_ok]
          exact ih acc1 key t htail
            (fun k hk => hnl k (List.mem_cons_of_mem _ hk))
            (mkfaviconsStep_exists_false hstep
              (hnl kv.1 (List.mem_cons_self _ _)) hex)
            hdec

theorem mkfavFold_writes (ts : List (String × Theme)) :
    ∀ (acc : FsState × List WriteOp) (key : String) (t : Theme) (c : Rgb3)
      (st' : FsState) (ops' : List WriteOp),
    (key, t) ∈ ts →
    (∀ k ∈ ts.map Prod.fst, faviconPath k ≠ literalFaviconCheckPath) →
    (ts.map Prod.fst).Nodup →
    fsExists acc.1 literalFaviconCheckPath = false →
    hexDecode3? (stripHashes t.color) = some c →
    ts.foldlM mkfaviconsStep acc = .ok (st', ops') →
    fsLookup st'.files (faviconPath key) = some (.ico (faviconImage c)) := by
  induction ts with
  | nil => intro _ _ _ _ _ _ hmem; simp at hmem
  | cons kv ts ih =>
      intro acc key t c st' ops' hmem hnl hnd hex hdec hfold
      rw [List.foldlM_cons] at hfold
      rcases List.mem_cons.mp hmem with heq | htail
      · have hk1 : kv.1 = key := congrArg Prod.fst heq.symm
        have hstep : mkfaviconsStep acc kv = .ok
            (FsState.mk
              (setAssoc acc.1.files (faviconPath kv.1)
                (FileContent.ico (faviconImage c)))
              acc.1.dirs,
             acc.2 ++ [WriteOp.write (faviconPath kv.1)]) := by
          unfold mkfaviconsStep
          rw [hex]
          rw [show kv.2 = t from congrArg Prod.snd heq.symm, hdec]
          rfl
        rw [hstep, exceptBind_ok] at hfold
        have hnodup : kv.1 ∉ ts.map Prod.fst := (List.nodup_cons.mp hnd).1
        have hq : ∀ k ∈ ts.map Prod.fst, faviconPath key ≠ faviconPath k := by
          intro k hk hcontr
          exact hnodup (by rw [hk1, faviconPath_inj hcontr]; exact hk)
        have hpres := mkfavFold_preserves ts _ st' ops' hfold (faviconPath key) hq
        rw [hpres]
        show lookupAssoc (setAssoc acc.1.files (faviconPath kv.1) _)
          (faviconPath key) = _
        rw [hk1]
        exact lookupAssoc_setAssoc_self _ _ _
      · cases hstep : mkfaviconsStep acc kv <;> rw [hstep] at hfold
        case error e =>
          rw [exceptBind_error] at hfold
          exact absurd hfold (by simp)
        case ok acc1 =>
          rw [exceptBind_ok] at hfold
          exact ih acc1 key t c st' ops' htail
            (fun k hk => hnl k (List.mem_cons_of_mem _ hk))
            (List.nodup_cons.mp hnd).2
            (mkfaviconsStep_exists_false hstep
              (hnl kv.1 (List.mem_cons_self _ _)) hex)
            hdec hfold

theorem fsExists_createDirAll {st : FsState} {p q : String}
    (h : fsExists st q = false) (hne : q ≠ p) :
    fsExists (createDirAll st p) q = false := by
  by_cases hp : p ∈ st.dirs <;> simp_all [fsExists, createDirAll, hne]

/-- C5 counterexample: a theme whose hex color fails to decode is NOT a
fatal error when the (literal) checked path already exists on disk:
`mkfavicons` skips the theme and succeeds without ever decoding. -/
theorem mkfavicons_badhex_not_fatal_cex :
    hexDecode3? (stripHashes "#zzz") = none ∧
    mkfavicons badHexThemes literalPathState = .ok (literalPathState, []) :=
  ⟨rfl, rfl⟩

/-- C5 (amended): provided generation is actually attempted (the checked
path is absent and no theme id collides with it), every theme whose hex
color decodes gets, on success, a favicon file at its deterministic path
holding the 16x16 image whose every pixel is the decoded accent color, and
a theme whose hex color fails to decode makes `mkfavicons` fail. -/
theorem mkfavicons_solid_or_fatal (themes : List (String × Theme))
    (st : FsState) (key : String) (t : Theme)
    (hmem : (key, t) ∈ themes)
    (hnl : ∀ k ∈ themes.map Prod.fst,
      faviconPath k ≠ literalFaviconCheckPath)
    (hnd : (themes.map Prod.fst).Nodup)
    (hex : fsExists st literalFaviconCheckPath = false) :
    (∀ c, hexDecode3? (stripHashes t.color) = some c →
       ∀ st' ops, mkfavicons themes st = .ok (st', ops) →
         fsLookup st'.files (faviconPath key) =
           some (.ico (faviconImage c)) ∧
         faviconImage c = ⟨16, 16, List.replicate 256 c⟩) ∧
    (hexDecode3? (stripHashes t.color) = none →
       ∃ e, mkfavicons themes st = .error e) := by
  have hex1 : fsExists (createDirAll st "static/favicons/")
      literalFaviconCheckPath = false :=
    fsExists_createDirAll hex (by decide)
  constructor
  · intro c hdec st' ops hok
    unfold mkfavicons at hok
    rw [mkdir_eq, exceptBind_ok] at hok
    exact ⟨mkfavFold_writes themes _ key t c st' ops hmem hnl hnd hex1
      hdec hok, faviconImage_solid c⟩
  · intro hdec
    obtain ⟨e, he⟩ :=
      mkfavFold_fatal themes (createDirAll st "static/favicons/", [])
        key t hmem hnl hex1 hdec
    refine ⟨e, ?_⟩
    unfold mkfavicons
    rw [mkdir_eq, exceptBind_ok]
    exact he

theorem strAppend_left_cancel {s a b : String} (h : s ++ a = s ++ b) :
    a = b := by
  have h2 : s.data ++ a.data = s.data ++ b.data := by
    rw [← String.data_append, ← String.data_append, h]
  exact strExt (List.append_cancel_left h2)

theorem createDirAll_files (st : FsState) (p : String) :
    (createDirAll st p).files = st.files := by
  unfold createDirAll
  split <;> rfl

theorem contains_cons_of {l : List String} {x : String} (p : String)
    (hx : l.contains x = true) : (p :: l).contains x = true := by
  rw [List.contains_cons]
  exact Bool.or_eq_true_iff.mpr (Or.inr hx)

theorem dirMem_createDirAll {st : FsState} {d : String} (p : String)
    (h : dirMem st d = true) : dirMem (createDirAll st p) d = true := by
  unfold createDirAll
  split
  · exact h
  · unfold dirMem at h ⊢
    rcases Bool.or_eq_true_iff.mp h with h1 | h1
    · rcases Bool.or_eq_true_iff.mp h1 with h2 | h2
      · exact Bool.or_eq_true_iff.mpr (Or.inl
          (Bool.or_eq_true_iff.mpr (Or.inl (contains_cons_of p h2))))
      · exact Bool.or_eq_true_iff.mpr (Or.inl
          (Bool.or_eq_true_iff.mpr (Or.inr (contains_cons_of p h2))))
    · exact Bool.or_eq_true_iff.mpr (Or.inr (contains_cons_of p h1))

theorem lookupAssoc_mem_nodup {α : Type} {l : List (String × α)}
    (hnd : (l.map Prod.fst).Nodup) {p : String} {c : α}
    (hm : (p, c) ∈ l) : lookupAssoc l p = some c := by
  induction l with
  | nil => simp at hm
  | cons hd tl ih =>
      obtain ⟨a, b⟩ := hd
      rcases List.mem_cons.mp hm with heq | htail
      · rw [show p = a from (Prod.mk.injEq .. |>.mp heq.symm).1.symm]
        simp [lookupAssoc, (Prod.mk.injEq .. |>.mp heq.symm).2]
      · have hne : a ≠ p := by
          intro hap
          subst hap
          exact (List.nodup_cons.mp (by simpa using hnd)).1
            (List.mem_map_of_mem Prod.fst htail)
        simp only [lookupAssoc, if_neg hne]
        exact ih (List.nodup_cons.mp (by simpa using hnd)).2 htail

theorem isDirectChild_decomp {dir p : String}
    (h : isDirectChild dir p = true) :
    ∃ nm : List Char, nm ≠ [] ∧ '/' ∉ nm ∧
      p.data = (dirSlash dir).data ++ nm := by
  unfold isDirectChild at h
  simp only [Bool.and_eq_true] at h
  obtain ⟨⟨hsw, hne⟩, hns⟩ := h
  obtain ⟨t, ht⟩ := listStartsWith_exists (by simpa [strStartsWith] using hsw)
  refine ⟨t, ?_, ?_, ht⟩
  · intro ht0
    rw [ht, ht0, List.drop_left] at hne
    simp at hne
  · intro hmem
    rw [ht, List.drop_left] at hns
    simp only [Bool.not_eq_true'] at hns
    have hc : t.contains '/' = true := List.elem_eq_true_of_mem hmem
    rw [hns] at hc
    simp at hc

theorem ne_static_of_js {q r : String} (nm : List Char)
    (hq : q.data = 'j' :: 's' :: '/' :: nm) : q ≠ "static/" ++ r := by
  intro h
  have hd : q.data = ("static/" ++ r).data := congrArg String.data h
  rw [String.data_append, hq,
     show "static/".data = ['s', 't', 'a', 't', 'i', 'c', '/'] from rfl] at hd
  simp at hd

theorem buildjsFold (entries : List (String × FileContent)) :
    ∀ (acc : FsState × List WriteOp),
    (∀ pc ∈ entries, fsLookup acc.1.files pc.1 = some pc.2) →
    (∀ pc ∈ entries, ∃ nm : List Char,
      (pc.1 : String).data = 'j' :: 's' :: '/' :: nm) →
    ((entries.map Prod.fst).Nodup) →
    ∃ (st' : FsState) (rest : List WriteOp),
      entries.foldlM
        (fun (acc2 : FsState × List WriteOp) (pc : String × FileContent) =>
          (match copyFile acc2.1 pc.1 ("static/" ++ pc.1) with
          | .ok st2 => .ok (st2, acc2.2 ++ [.copy pc.1 ("static/" ++ pc.1)])
          | .error ce => .error ⟨.other, ce.msg⟩ :
            Except Err (FsState × List WriteOp))) acc =
        .ok (st', acc.2 ++ rest) ∧
      (∀ pc ∈ entries,
        WriteOp.copy pc.1 ("static/" ++ pc.1) ∈ rest ∧
        fsLookup st'.files ("static/" ++ pc.1) = some pc.2) ∧
      (∀ q : String, (∀ pc ∈ entries, q ≠ "static/" ++ pc.1) →
        fsLookup st'.files q = fsLookup acc.1.files q) := by
  induction entries with
  | nil =>
      intro acc _ _ _
      exact ⟨acc.1, [], by simp only [List.foldlM_nil, List.append_nil]; rfl,
        by simp, fun q _ => rfl⟩
  | cons pc es ih =>
      intro acc hsrc hstruct hnd
      obtain ⟨nmh, hnmh⟩ := hstruct pc (List.mem_cons_self _ _)
      have hlook : fsLookup acc.1.files pc.1 = some pc.2 :=
        hsrc pc (List.mem_cons_self _ _)
      have hcopy : copyFile acc.1 pc.1 ("static/" ++ pc.1) = .ok
          (FsState.mk (setAssoc acc.1.files ("static/" ++ pc.1) pc.2)
            acc.1.dirs) := by
        unfold copyFile
        rw [hlook]
      have hkeyne : pc.1 ∉ es.map Prod.fst := (List.nodup_cons.mp hnd).1
      obtain ⟨st', rest, hfold, hprops, hpres⟩ :=
        ih (FsState.mk (setAssoc acc.1.files ("static/" ++ pc.1) pc.2)
              acc.1.dirs,
            acc.2 ++ [WriteOp.copy pc.1 ("static/" ++ pc.1)])
          (by
            intro qc hqc
            obtain ⟨nmq, hnmq⟩ := hstruct qc (List.mem_cons_of_mem _ hqc)
            show lookupAssoc (setAssoc acc.1.files ("static/" ++ pc.1) pc.2)
              qc.1 = some qc.2
            rw [lookupAssoc_setAssoc_ne _ _ _ _ (ne_static_of_js nmq hnmq)]
            exact hsrc qc (List.mem_cons_of_mem _ hqc))
          (fun qc hqc => hstruct qc (List.mem_cons_of_mem _ hqc))
          (List.nodup_cons.mp hnd).2
      refine ⟨st', WriteOp.copy pc.1 ("static/" ++ pc.1) :: rest, ?_, ?_, ?_⟩
      · rw [List.foldlM_cons]
        rw [hcopy]
        rw [exceptBind_ok, hfold]
        rw [List.append_assoc]
        rfl
      · intro qc hqc
        rcases List.mem_cons.mp hqc with heq | htail
        · subst heq
          refine ⟨List.mem_cons_self _ _, ?_⟩
          have hq : ∀ rc ∈ es, "static/" ++ qc.1 ≠ "static/" ++ rc.1 := by
            intro rc hrc hceq
            exact hkeyne (by
              rw [strAppend_left_cancel hceq]
              exact List.mem_map_of_mem Prod.fst hrc)
          rw [hpres _ hq]
          exact lookupAssoc_setAssoc_self _ _ _
        · obtain ⟨h1, h2⟩ := hprops qc htail
          exact ⟨List.mem_cons_of_mem _ h1, h2⟩
      · intro q hq
        rw [hpres q (fun rc hrc => hq rc (List.mem_cons_of_mem _ hrc))]
        show lookupAssoc (setAssoc acc.1.files ("static/" ++ pc.1) pc.2) q = _
        rw [lookupAssoc_setAssoc_ne _ _ _ _ (hq pc (List.mem_cons_self _ _))]
        rfl

/-- C3 (amended): `buildjs` copies each entry one-to-one to destination
`"static/" ++ <the entry's full source path>`; this lands flat inside
`static/js/` (destination `static/js/<name>`) exactly when the configured
js directory is the literal `js`, and a pre-existing `static/js/` directory
is not an error (the theorem needs no hypothesis that it is absent). -/
theorem buildjs_copies (cfg : SiteConfig) (st : FsState)
    (hjs : cfg.jsdir = "js") (hdir : dirMem st "js" = true)
    (hnd : (st.files.map Prod.fst).Nodup) :
    ∃ st' ops, buildjs cfg st = .ok (st', ops) ∧
      ∀ pc ∈ read_dirEntries st "js",
        WriteOp.copy pc.1 ("static/" ++ pc.1) ∈ ops ∧
        fsLookup st'.files ("static/" ++ pc.1) = some pc.2 ∧
        ∃ nm : String, pc.1 = "js/" ++ nm ∧
          "static/" ++ pc.1 = "static/js/" ++ nm := by
  have hent : read_dirEntries (createDirAll st "static/js/") "js" =
      read_dirEntries st "js" := by
    unfold read_dirEntries
    rw [createDirAll_files]
  have hstruct : ∀ pc ∈ read_dirEntries st "js", ∃ nm : List Char,
      (pc.1 : String).data = 'j' :: 's' :: '/' :: nm := by
    intro pc hpc
    have hchild : isDirectChild "js" pc.1 = true :=
      (List.mem_filter.mp hpc).2
    obtain ⟨nm, _, _, hdata⟩ := isDirectChild_decomp hchild
    exact ⟨nm, by rw [hdata]; rfl⟩
  have hndent : ((read_dirEntries st "js").map Prod.fst).Nodup :=
    ((List.filter_sublist st.files).map Prod.fst).nodup hnd
  obtain ⟨st', rest, hfold, hprops, _⟩ :=
    buildjsFold (read_dirEntries st "js")
      (createDirAll st "static/js/", [])
      (by
        intro pc hpc
        show lookupAssoc (createDirAll st "static/js/").files pc.1 = _
        rw [createDirAll_files]
        exact lookupAssoc_mem_nodup hnd (List.mem_filter.mp hpc).1)
      hstruct hndent
  refine ⟨st', rest, ?_, ?_⟩
  · unfold buildjs
    rw [mkdir_eq, exceptBind_ok, hjs]
    rw [show read_dir (createDirAll st "static/js/") "js" =
          .ok (read_dirEntries st "js") by
        unfold read_dir
        rw [if_pos (dirMem_createDirAll "static/js/" hdir), hent]]
    dsimp only
    rw [hfold]
    rfl
  · intro pc hpc
    obtain ⟨h1, h2⟩ := hprops pc hpc
    obtain ⟨nm, hnm⟩ := hstruct pc hpc
    refine ⟨h1, h2, ⟨nm⟩, ?_, ?_⟩
    · apply strExt
      rw [String.data_append, hnm]
      rfl
    · apply strExt
      rw [String.data_append, String.data_append, hnm]
      rfl

/-- C3 witness: with `jsdir = "js"`, the single script is copied flat into
`static/js/`, and a pre-existing `static/js/` directory is tolerated. -/
theorem buildjs_copies_witness :
    ∃ st' ops,
      buildjs demoBase ⟨[("js/app.js", .text "x")], ["js", "static/js/"]⟩ =
        .ok (st', ops) ∧
      ∀ pc ∈ read_dirEntries
          ⟨[("js/app.js", .text "x")], ["js", "static/js/"]⟩ "js",
        WriteOp.copy pc.1 ("static/" ++ pc.1) ∈ ops ∧
        fsLookup st'.files ("static/" ++ pc.1) = some pc.2 ∧
        ∃ nm : String, pc.1 = "js/" ++ nm ∧
          "static/" ++ pc.1 = "static/js/" ++ nm :=
  buildjs_copies demoBase ⟨[("js/app.js", .text "x")], ["js", "static/js/"]⟩
    rfl rfl (by decide)

/-- C3 counterexample: with the js directory configured as `cfg/js`, the
file `app.js` is not copied to `static/js/app.js`; it lands at
`static/cfg/js/app.js`, i.e. `static/` plus the full source path. -/
theorem buildjs_dest_cex :
    fsLookup (stateAfter (buildjs c3Config c3State) c3State).files
        "static/js/app.js" = none ∧
    fsLookup (stateAfter (buildjs c3Config c3State) c3State).files
        "static/cfg/js/app.js" = some (.text "x") :=
  ⟨rfl, rfl⟩

theorem listStartsWith_append_cancel (a : List Char) :
    ∀ b c : List Char, listStartsWith (a ++ b) (a ++ c) = listStartsWith b c := by
  induction a with
  | nil => intro b c; rfl
  | cons x xs ih => intro b c; simp [listStartsWith, ih]

theorem getLastSlash_decomp {d : List Char}
    (h : d.getLast? = some '/') : d = d.dropLast ++ ['/'] := by
  have hne : d ≠ [] := by
    intro h0
    rw [h0] at h
    simp at h
  have h1 : d.getLast hne = '/' := by
    have := List.getLast?_eq_getLast d hne
    rw [h] at this
    exact (Option.some.inj this).symm
  conv_lhs => rw [← List.dropLast_append_getLast hne]
  rw [h1]

/-- The destination the staticdir pass computes for a direct child is never
inside the `static/pages/` tree. -/
theorem static_dst_not_pages {d q s : String}
    (hchild : isDirectChild d q = true)
    (hstrip : stripLead? d q = some s) :
    strStartsWith "static/pages/" ("static/" ++ s) = false := by
  obtain ⟨nm, hne, hns, hdata⟩ := isDirectChild_decomp hchild
  have hdir : (dirSlash d).data = (stripSlash d).data ++ ['/'] := by
    unfold dirSlash
    rw [String.data_append]
  unfold stripLead? at hstrip
  split at hstrip
  case isFalse => exact absurd hstrip (by simp)
  case isTrue hsw =>
  have hs : s.data = q.data.drop d.data.length := by
    have := Option.some.inj hstrip
    rw [← this]
  have hsw2 : strStartsWith "static/pages/" ("static/" ++ s) =
      listStartsWith "pages/".data s.data := by
    unfold strStartsWith
    rw [String.data_append,
       show "static/pages/".data = "static/".data ++ "pages/".data from rfl,
       listStartsWith_append_cancel]
  rw [hsw2]
  by_cases hls : d.data.getLast? = some '/'
  · have hstrip2 : (stripSlash d).data = d.data.dropLast := by
      unfold stripSlash
      rw [if_pos hls]
    have hq : q.data = d.data ++ nm := by
      rw [hdata, hdir, hstrip2, ← getLastSlash_decomp hls]
    rw [hq, List.drop_left] at hs
    by_cases hpre : listStartsWith "pages/".data s.data = true
    · obtain ⟨t, ht⟩ := listStartsWith_exists hpre
      exfalso
      apply hns
      rw [← hs, ht]
      exact List.mem_append_left t (by decide)
    · simpa using hpre
  · have hstrip2 : stripSlash d = d := by
      unfold stripSlash
      rw [if_neg hls]
    have hq : q.data = d.data ++ ('/' :: nm) := by
      rw [hdata, hdir, hstrip2, List.append_assoc]
      rfl
    rw [hq, List.drop_left] at hs
    rw [hs]
    rfl

theorem csFold_mono (cfg : SiteConfig) (es : List FsEntry) :
    ∀ (acc : FsState × List WriteOp) (st1 : FsState) (ops1 : List WriteOp),
    es.foldlM (collectstaticStep cfg) acc = .ok (st1, ops1) →
    ∀ op ∈ acc.2, op ∈ ops1 := by
  induction es with
  | nil =>
      intro acc st1 ops1 hfold op hop
      simp only [List.foldlM_nil] at hfold
      rw [show ops1 = acc.2 from congrArg Prod.snd (Except.ok.inj hfold).symm]
      exact hop
  | cons e es ih =>
      intro acc st1 ops1 hfold op hop
      rw [List.foldlM_cons] at hfold
      cases hstep : collectstaticStep cfg acc e <;> rw [hstep] at hfold
      case error err =>
        rw [exceptBind_error] at hfold
        exact absurd hfold (by simp)
      case ok acc1 =>
        rw [exceptBind_ok] at hfold
        refine ih acc1 st1 ops1 hfold op ?_
        rcases e with p | ⟨p, c⟩ <;> simp only [collectstaticStep] at hstep
        · cases Except.ok.inj hstep
          exact hop
        · split at hstep
          · split at hstep
            · cases Except.ok.inj hstep
              exact hop
            · split at hstep
              · cases Except.ok.inj hstep
                exact List.mem_append_left _ hop
              · exact absurd hstep (by simp)
            · cases Except.ok.inj hstep
              exact hop
          · cases Except.ok.inj hstep
            exact hop

/-- C5 witness: on an empty filesystem, theme `dark` (#202020) yields a
favicon whose every pixel is rgb(32,32,32). -/
theorem mkfavicons_solid_or_fatal_witness :
    fsLookup
        (stateAfter (mkfavicons darkThemes ⟨[], ["static/"]⟩)
          ⟨[], ["static/"]⟩).files
        (faviconPath "dark") =
      some (.ico (faviconImage ⟨32, 32, 32⟩)) ∧
    faviconImage ⟨32, 32, 32⟩ = ⟨16, 16, List.replicate 256 ⟨32, 32, 32⟩⟩ :=
  (mkfavicons_solid_or_fatal darkThemes ⟨[], ["static/"]⟩ "dark"
      ⟨"#202020", "#ffffff"⟩ (by decide) (by decide) (by decide) rfl).1
    ⟨32, 32, 32⟩ rfl _ _ rfl

theorem collectstaticStep_cases (cfg : SiteConfig)
    (acc : FsState × List WriteOp) (e : FsEntry)
    (acc1 : FsState × List WriteOp)
    (hstep : collectstaticStep cfg acc e = .ok acc1) :
    acc1.2 = acc.2 ∨
    ∃ p st2, (∃ c, e = FsEntry.file p c) ∧
      acc1 = (st2, acc.2 ++ [WriteOp.copy p (mirrorPagesDest cfg.pagedir p)]) ∧
      ∃ e' t', extension? p = some e' ∧
        lookupAssoc cfg.filetypes e' = some t' ∧
        t' ≠ ExtensionFileType.Config := by
  rcases e with p | ⟨p, c⟩ <;> simp only [collectstaticStep] at hstep
  · cases Except.ok.inj hstep
    exact Or.inl rfl
  · cases hext : extension? p <;> simp only [hext] at hstep
    case none =>
      cases Except.ok.inj hstep
      exact Or.inl rfl
    case some ext =>
      cases hty : lookupAssoc cfg.filetypes ext <;> simp only [hty] at hstep
      case none =>
        cases Except.ok.inj hstep
        exact Or.inl rfl
      case some t =>
        cases t
        case Config =>
          cases Except.ok.inj hstep
          exact Or.inl rfl
        all_goals
          cases hcp : copyFile acc.1 p (mirrorPagesDest cfg.pagedir p) <;>
            simp only [hcp] at hstep
        any_goals
          (cases Except.ok.inj hstep
           exact Or.inr ⟨p, _, ⟨c, rfl⟩, rfl, ext, _, hext, hty, by decide⟩)
        all_goals simp at hstep

theorem csFold_ops (cfg : SiteConfig) (es : List FsEntry) :
    ∀ (acc : FsState × List WriteOp) (st1 : FsState) (ops1 : List WriteOp),
    es.foldlM (collectstaticStep cfg) acc = .ok (st1, ops1) →
    ∀ op ∈ ops1, op ∈ acc.2 ∨
      ∃ q, op = WriteOp.copy q (mirrorPagesDest cfg.pagedir q) ∧
        ∃ e' t', extension? q = some e' ∧
          lookupAssoc cfg.filetypes e' = some t' ∧
          t' ≠ ExtensionFileType.Config := by
  induction es with
  | nil =>
      intro acc st1 ops1 hfold op hop
      simp only [List.foldlM_nil] at hfold
      cases Except.ok.inj hfold
      exact Or.inl hop
  | cons e es ih =>
      intro acc st1 ops1 hfold op hop
      rw [List.foldlM_cons] at hfold
      cases hstep : collectstaticStep cfg acc e <;> rw [hstep] at hfold
      case error err =>
        rw [exceptBind_error] at hfold
        exact absurd hfold (by simp)
      case ok acc1 =>
        rw [exceptBind_ok] at hfold
        rcases ih acc1 st1 ops1 hfold op hop with hin | hshape
        · rcases collectstaticStep_cases cfg acc e acc1 hstep with
            heq | ⟨q, st2, _, hacc1, hfacts⟩
          · rw [heq] at hin
            exact Or.inl hin
          · rw [hacc1] at hin
            rcases List.mem_append.mp hin with h1 | h1
            · exact Or.inl h1
            · exact Or.inr ⟨q, by simpa using h1, hfacts⟩
        · exact Or.inr hshape

theorem csFold_contains (cfg : SiteConfig) (es : List FsEntry) :
    ∀ (acc : FsState × List WriteOp) (st1 : FsState) (ops1 : List WriteOp),
    es.foldlM (collectstaticStep cfg) acc = .ok (st1, ops1) →
    ∀ p c ext t, FsEntry.file p c ∈ es → extension? p = some ext →
      lookupAssoc cfg.filetypes ext = some t →
      t ≠ ExtensionFileType.Config →
      WriteOp.copy p (mirrorPagesDest cfg.pagedir p) ∈ ops1 := by
  induction es with
  | nil => intro _ _ _ _ _ _ _ _ hmem; simp at hmem
  | cons e es ih =>
      intro acc st1 ops1 hfold p c ext t hmem hext hty htc
      rw [List.foldlM_cons] at hfold
      cases hstep : collectstaticStep cfg acc e <;> rw [hstep] at hfold
      case error err =>
        rw [exceptBind_error] at hfold
        exact absurd hfold (by simp)
      case ok acc1 =>
        rw [exceptBind_ok] at hfold
        rcases List.mem_cons.mp hmem with heq | htail
        · subst heq
          simp only [collectstaticStep, hext, hty] at hstep
          cases t
          case Config => exact absurd rfl htc
          all_goals
            cases hcp : copyFile acc.1 p (mirrorPagesDest cfg.pagedir p) <;>
              simp only [hcp] at hstep
          any_goals
            (cases Except.ok.inj hstep
             exact csFold_mono cfg es _ st1 ops1 hfold _
               (List.mem_append_right _ (List.mem_singleton.mpr rfl)))
          all_goals simp at hstep
        · exact ih acc1 st1 ops1 hfold p c ext t htail hext hty htc

theorem csFlatFold_mono (cfg : SiteConfig)
    (entries : List (String × FileContent)) :
    ∀ (acc : FsState × List WriteOp) (st1 : FsState) (ops1 : List WriteOp),
    entries.foldlM (collectstaticFlat cfg) acc = .ok (st1, ops1) →
    ∀ op ∈ acc.2, op ∈ ops1 := by
  induction entries with
  | nil =>
      intro acc st1 ops1 hfold op hop
      simp only [List.foldlM_nil] at hfold
      cases Except.ok.inj hfold
      exact hop
  | cons pc es ih =>
      intro acc st1 ops1 hfold op hop
      rw [List.foldlM_cons] at hfold
      cases hstep : collectstaticFlat cfg acc pc <;> rw [hstep] at hfold
      case error err =>
        rw [exceptBind_error] at hfold
        exact absurd hfold (by simp)
      case ok acc1 =>
        rw [exceptBind_ok] at hfold
        refine ih acc1 st1 ops1 hfold op ?_
        unfold collectstaticFlat at hstep
        cases hsp : stripLead? cfg.staticdir pc.1 <;>
          simp only [hsp] at hstep
        case none => exact absurd hstep (by simp)
        case some s =>
          cases hcp : copyFile acc.1 pc.1 ("static/" ++ s) <;>
            simp only [hcp] at hstep
          case error ce => exact absurd hstep (by simp)
          case ok st2 =>
            cases Except.ok.inj hstep
            exact List.mem_append_left _ hop

theorem csFlatFold_ops (cfg : SiteConfig)
    (entries : List (String × FileContent)) :
    ∀ (acc : FsState × List WriteOp) (st1 : FsState) (ops1 : List WriteOp),
    entries.foldlM (collectstaticFlat cfg) acc = .ok (st1, ops1) →
    ∀ op ∈ ops1, op ∈ acc.2 ∨
      ∃ q s, op = WriteOp.copy q ("static/" ++ s) ∧
        stripLead? cfg.staticdir q = some s ∧
        ∃ c, (q, c) ∈ entries := by
  induction entries with
  | nil =>
      intro acc st1 ops1 hfold op hop
      simp only [List.foldlM_nil] at hfold
      cases Except.ok.inj hfold
      exact Or.inl hop
  | cons pc es ih =>
      intro acc st1 ops1 hfold op hop
      rw [List.foldlM_cons] at hfold
      cases hstep : collectstaticFlat cfg acc pc <;> rw [hstep] at hfold
      case error err =>
        rw [exceptBind_error] at hfold
        exact absurd hfold (by simp)
      case ok acc1 =>
        rw [exceptBind_ok] at hfold
        rcases ih acc1 st1 ops1 hfold op hop with hin | hshape
        · unfold collectstaticFlat at hstep
          cases hsp : stripLead? cfg.staticdir pc.1 <;>
            simp only [hsp] at hstep
          case none => exact absurd hstep (by simp)
          case some s =>
            cases hcp : copyFile acc.1 pc.1 ("static/" ++ s) <;>
              simp only [hcp] at hstep
            case error ce => exact absurd hstep (by simp)
            case ok st2 =>
              cases Except.ok.inj hstep
              rcases List.mem_append.mp hin with h1 | h1
              · exact Or.inl h1
              · exact Or.inr ⟨pc.1, s, by simpa using h1, hsp,
                  pc.2, by simp⟩
        · obtain ⟨q, s, h1, h2, c, h3⟩ := hshape
          exact Or.inr ⟨q, s, h1, h2, c, List.mem_cons_of_mem _ h3⟩

/-- C4: for every file in the page tree whose extension is classified
`Config`, `collectstatic` performs no copy of that file into the
`static/pages/` output tree; every file whose extension is classified with
any other known type is copied to the mirrored location. -/
theorem collectstatic_config_skip (cfg : SiteConfig) (st : FsState)
    (st' : FsState) (ops : List WriteOp) (p : String) (c : FileContent)
    (ext : String)
    (hok : collectstatic cfg st = .ok (st', ops))
    (hmem : (p, c) ∈ st.files)
    (hunder : underDir cfg.pagedir p = true)
    (hext : extension? p = some ext) :
    (lookupAssoc cfg.filetypes ext = some ExtensionFileType.Config →
       ∀ dst, strStartsWith "static/pages/" dst = true →
         WriteOp.copy p dst ∉ ops) ∧
    (∀ t, lookupAssoc cfg.filetypes ext = some t →
       t ≠ ExtensionFileType.Config →
       WriteOp.copy p (mirrorPagesDest cfg.pagedir p) ∈ ops) := by
  unfold collectstatic at hok
  rw [mkdir_eq, exceptBind_ok] at hok
  cases hfold : (walkEntries (createDirAll st "static/pages/")
      cfg.pagedir).foldlM (collectstaticStep cfg)
      (createDirAll st "static/pages/", []) <;> rw [hfold] at hok
  case error e =>
    rw [exceptBind_error] at hok
    exact absurd hok (by simp)
  case ok acc2 =>
    obtain ⟨st1, ops1⟩ := acc2
    rw [exceptBind_ok] at hok
    dsimp only at hok
    cases hrd : read_dir st1 cfg.staticdir <;> rw [hrd] at hok
    case error e => exact absurd hok (by simp)
    case ok entries =>
    have hentries : entries = read_dirEntries st1 cfg.staticdir := by
      unfold read_dir at hrd
      split at hrd
      · exact (Except.ok.inj hrd).symm
      · exact absurd hrd (by simp)
    constructor
    · intro hcfg dst hdst hopmem
      rcases csFlatFold_ops cfg entries _ st' ops hok _ hopmem with
        hin1 | ⟨q, s, hop, hsp, cq, hqent⟩
      · rcases csFold_ops cfg _ _ st1 ops1 hfold _ hin1 with
          hbase | ⟨q, hop, e', t', he', ht', htc'⟩
        · simp at hbase
        · obtain ⟨hq1, hq2⟩ := WriteOp.copy.injEq .. |>.mp hop
          subst hq1
          rw [hext] at he'
          obtain rfl := Option.some.inj he'
          rw [hcfg] at ht'
          exact htc' (Option.some.inj ht').symm
      · obtain ⟨hq1, hq2⟩ := WriteOp.copy.injEq .. |>.mp hop
        subst hq1
        have hchild : isDirectChild cfg.staticdir p = true := by
          have hrdm : (p, cq) ∈ read_dirEntries st1 cfg.staticdir := by
            rw [← hentries]; exact hqent
          exact (List.mem_filter.mp hrdm).2
        have hnp := static_dst_not_pages hchild hsp
        rw [← hq2, hdst] at hnp
        exact absurd hnp (by simp)
    · intro t hty htc
      have hwalk : FsEntry.file p c ∈
          walkEntries (createDirAll st "static/pages/") cfg.pagedir := by
        unfold walkEntries
        refine List.mem_append_right _ ?_
        refine List.mem_map.mpr ⟨(p, c), ?_, rfl⟩
        refine List.mem_filter.mpr ⟨?_, hunder⟩
        rw [createDirAll_files]
        exact hmem
      exact csFlatFold_mono cfg entries _ st' ops hok _
        (csFold_contains cfg _ _ st1 ops1 hfold p c ext t hwalk hext hty htc)

/-- C4 witness: `a.json` (config-typed) is never copied into the
`static/pages/` tree while `b.png` (image-typed) is copied to its mirrored
location. -/
theorem collectstatic_config_skip_witness :
    (WriteOp.copy "pages/a.json" "static/pages//a.json" ∉
      writesOf (collectstatic c4Config c4State)) ∧
    WriteOp.copy "pages/b.png" (mirrorPagesDest "pages" "pages/b.png") ∈
      writesOf (collectstatic c4Config c4State) :=
  ⟨(collectstatic_config_skip c4Config c4State _ _ "pages/a.json"
      (.text "cfg") "json" rfl (by decide) (by decide) rfl).1 rfl
      "static/pages//a.json" (by decide),
   (collectstatic_config_skip c4Config c4State _ _ "pages/b.png"
      (.text "img") "png" rfl (by decide) (by decide) rfl).2
      .Image rfl (by decide)⟩

/-- C10: a file under the page tree with no extension, or with an extension
absent from the classification table, is silently skipped: its walk step
succeeds without changing anything, and `collectstatic` performs no copy of
it into the `static/pages/` output tree. -/
theorem collectstatic_unclassified_skip (cfg : SiteConfig) (st : FsState)
    (st' : FsState) (ops : List WriteOp) (p : String) (c : FileContent)
    (hok : collectstatic cfg st = .ok (st', ops))
    (_hmem : (p, c) ∈ st.files)
    (_hunder : underDir cfg.pagedir p = true)
    (hskip : extension? p = none ∨ ∃ ext, extension? p = some ext ∧
      lookupAssoc cfg.filetypes ext = none) :
    (∀ acc, collectstaticStep cfg acc (FsEntry.file p c) = .ok acc) ∧
    (∀ dst, strStartsWith "static/pages/" dst = true →
       WriteOp.copy p dst ∉ ops) := by
  constructor
  · intro acc
    rcases hskip with hnone | ⟨ext, hext, hty⟩
    · simp only [collectstaticStep, hnone]
    · simp only [collectstaticStep, hext, hty]
  · unfold collectstatic at hok
    rw [mkdir_eq, exceptBind_ok] at hok
    cases hfold : (walkEntries (createDirAll st "static/pages/")
        cfg.pagedir).foldlM (collectstaticStep cfg)
        (createDirAll st "static/pages/", []) <;> rw [hfold] at hok
    case error e =>
      rw [exceptBind_error] at hok
      exact absurd hok (by simp)
    case ok acc2 =>
      obtain ⟨st1, ops1⟩ := acc2
      rw [exceptBind_ok] at hok
      dsimp only at hok
      cases hrd : read_dir st1 cfg.staticdir <;> rw [hrd] at hok
      case error e => exact absurd hok (by simp)
      case ok entries =>
      have hentries : entries = read_dirEntries st1 cfg.staticdir := by
        unfold read_dir at hrd
        split at hrd
        · exact (Except.ok.inj hrd).symm
        · exact absurd hrd (by simp)
      intro dst hdst hopmem
      rcases csFlatFold_ops cfg entries _ st' ops hok _ hopmem with
        hin1 | ⟨q, s, hop, hsp, cq, hqent⟩
      · rcases csFold_ops cfg _ _ st1 ops1 hfold _ hin1 with
          hbase | ⟨q, hop, e', t', he', ht', _⟩
        · simp at hbase
        · obtain ⟨hq1, hq2⟩ := WriteOp.copy.injEq .. |>.mp hop
          subst hq1
          rcases hskip with hnone | ⟨ext, hext, hty⟩
          · rw [hnone] at he'
            exact absurd he' (by simp)
          · rw [hext] at he'
            obtain rfl := Option.some.inj he'
            rw [hty] at ht'
            exact absurd ht' (by simp)
      · obtain ⟨hq1, hq2⟩ := WriteOp.copy.injEq .. |>.mp hop
        subst hq1
        have hchild : isDirectChild cfg.staticdir p = true := by
          have hrdm : (p, cq) ∈ read_dirEntries st1 cfg.staticdir := by
            rw [← hentries]; exact hqent
          exact (List.mem_filter.mp hrdm).2
        have hnp := static_dst_not_pages hchild hsp
        rw [← hq2, hdst] at hnp
        exact absurd hnp (by simp)

/-- C10 witness: the extensionless `README` and the unknown-extension
`c.xyz` are skipped without error and never copied into the output tree. -/
theorem collectstatic_unclassified_skip_witness :
    collectstaticStep c4Config (⟨[], []⟩, [])
      (FsEntry.file "pages/README" (.text "r")) = .ok (⟨[], []⟩, []) ∧
    (WriteOp.copy "pages/c.xyz" "static/pages//c.xyz" ∉
      writesOf (collectstatic c4Config c4State)) :=
  ⟨(collectstatic_unclassified_skip c4Config c4State _ _ "pages/README"
      (.text "r") rfl (by decide) (by decide) (Or.inl rfl)).1 (⟨[], []⟩, []),
   (collectstatic_unclassified_skip c4Config c4State _ _ "pages/c.xyz"
      (.text "u") rfl (by decide) (by decide)
      (Or.inr ⟨"xyz", rfl, rfl⟩)).2 "static/pages//c.xyz" (by decide)⟩

end Ctclsite
